import Mathlib

/-!
Shallow embedding of the task-DAG scheduler core found in
`core/src/Kokkos_TaskScheduler.hpp` and the team-collective reductions of
`core/src/OpenMP/Kokkos_OpenMP_Task.hpp`.

Tasks live at natural-number addresses in an explicit association-list heap.
Raw C++ pointers are modelled as `Option Nat` (`none` is the null pointer).
The memory pool's `allocate` is an external collaborator, so each operation
receives the pool's answer (`Option Nat`: the address, or `none` on
exhaustion) as an argument.  `Kokkos::abort` and null-pointer dereference are
made explicit through the `Outcome` type.  Fields of the C++ records keep
their source names (`m_queue`, `m_ref_count`, ...).
-/

namespace KokkosModel

/-- Outcome of an operation that may call `Kokkos::abort` or dereference a
null pointer (undefined behaviour in the C++ source, surfaced here as
`nullDeref`). -/
inductive Outcome (α : Type) where
  | ok (val : α)
  | abort (msg : String)
  | nullDeref
deriving DecidableEq, Repr

/-- Task kinds, source `TaskBase` enum `{ TaskTeam , TaskSingle , Aggregate }`. -/
inductive TaskType where
  | TaskTeam
  | TaskSingle
  | Aggregate
deriving DecidableEq, Repr

/-- Source `enum class TaskPriority : int { High = 0, Regular = 1, Low = 2 }`. -/
inductive TaskPriority where
  | High
  | Regular
  | Low
deriving DecidableEq, Repr

/-- `static_cast<int>` of a `TaskPriority`. -/
def TaskPriority.toInt : TaskPriority → Int
  | .High => 0
  | .Regular => 1
  | .Low => 2

/-- The per-task control block `Impl::TaskBase`.  The intrusive `m_next`
link (which also encodes the lifecycle state) belongs to the concurrent
queue machinery and is not needed by any property below, so it is omitted.
`m_functor` stands for the user functor payload copied by the placement-new
construction, and `m_result` for the value slot in the allocation trailer;
`aggregate_deps` is the trailer of dependency pointers of an aggregate
(`aggregate_dependences()` in the source). -/
structure TaskBase where
  m_queue : Option Nat
  m_ref_count : Nat
  m_alloc_size : Nat
  m_apply : Option Nat
  m_dep : Option Nat
  m_dep_count : Nat
  m_task_type : TaskType
  m_priority : Int
  m_functor : Nat
  m_result : Int
  aggregate_deps : List (Option Nat)
deriving DecidableEq, Repr

/-- The task heap: tasks addressed by `Nat` pointers. -/
abbrev Heap := List (Nat × TaskBase)

/-- `Kokkos::Future`: a handle holding at most one task pointer (`m_task`). -/
structure Future where
  m_task : Option Nat
deriving DecidableEq, Repr

/-- Source `Future::is_null()`: `0 == m_task`. -/
def Future.is_null (f : Future) : Bool := f.m_task.isNone

/-- `Kokkos::TaskScheduler`: holds a pointer to its `TaskQueue`
(default-constructed schedulers have `m_queue == 0`). -/
structure TaskScheduler where
  m_queue : Option Nat
deriving DecidableEq, Repr

/-- `Impl::TaskPolicyData< TaskEnum , DepFutureType >`: the task type is the
`TaskEnum` template argument, plus a scheduler pointer, a dependence future
and a priority (already cast to `int`). -/
structure TaskPolicyData where
  m_task_type : TaskType
  m_scheduler : Option TaskScheduler
  m_dependence : Future
  m_priority : Int
deriving DecidableEq, Repr

/-- The `TaskPolicyData( DepFutureType && , TaskPriority const & )`
constructor: `m_scheduler(0)`, `m_dependence(arg_future)`,
`m_priority(static_cast<int>(arg_priority))`. -/
def TaskPolicyData.fromFuture (tt : TaskType) (arg_future : Future)
    (arg_priority : TaskPriority) : TaskPolicyData :=
  { m_task_type := tt
  , m_scheduler := none
  , m_dependence := arg_future
  , m_priority := arg_priority.toInt }

/-- The `TaskPolicyData( scheduler_type const & , TaskPriority const & )`
constructor: `m_scheduler(& arg_scheduler)`, `m_dependence()` (null future),
`m_priority(static_cast<int>(arg_priority))`. -/
def TaskPolicyData.fromScheduler (tt : TaskType) (arg_scheduler : TaskScheduler)
    (arg_priority : TaskPriority) : TaskPolicyData :=
  { m_task_type := tt
  , m_scheduler := some arg_scheduler
  , m_dependence := { m_task := none }
  , m_priority := arg_priority.toInt }

/-- Modelled from the spec: `TaskBase::add_dependence` is declared in
`impl/Kokkos_TaskQueue.hpp`, which is not part of this source tree.  Per the
spec (sections 3 and 4.4) it records the dependency pointer in the task's
`dep` field and performs a +1 on the dependency's `ref_count` when the
dependency is non-null.  The returned list holds the addresses whose
`ref_count` was incremented. -/
def add_dependence (t : TaskBase) (dep : Option Nat) : TaskBase × List Nat :=
  ({ t with m_dep := dep }, dep.toList)

/-- Everything a successful (non-aborting) `spawn` call did: the returned
future, the initialized task record placed at its address (`none` when pool
allocation failed), the tasks handed to `schedule()`, the dependency
`ref_count` increments performed, and the sizes requested from the pool. -/
structure SpawnResult where
  f : Future
  new_task : Option (Nat × TaskBase)
  scheduled : List Nat
  dep_increments : List Nat
  pool_requests : List Nat
deriving DecidableEq, Repr

/-- Queue resolution of `TaskScheduler::spawn`, lines 501-505: the queue is
taken from the policy's scheduler if present, else through
`arg_policy.m_dependence.m_task->m_queue` when the dependence future's task
is non-null (a dangling task pointer would be a wild dereference), else it
is the null pointer. -/
def TaskScheduler.spawn_queue (heap : Heap) (arg_policy : TaskPolicyData) :
    Outcome (Option Nat) :=
  match arg_policy.m_scheduler with
  | some s => .ok s.m_queue
  | none =>
    match arg_policy.m_dependence.m_task with
    | some p =>
      match heap.lookup p with
      | some t => .ok t.m_queue
      | none => .nullDeref
    | none => .ok none

/-- `TaskScheduler::spawn( arg_policy , arg_function , arg_functor )`,
lines 487-548 of `Kokkos_TaskScheduler.hpp`.  `sizeof_task` stands for the
compile-time `sizeof(task_type)` of the concrete task type, `alloc_result`
for the pool's answer to `queue->allocate(sizeof(task_type))`.  When queue
resolution yields the null pointer the call aborts with
"Kokkos spawn without Scheduler or Future"; on allocation failure a null
future is returned; otherwise the record is initialized exactly as in lines
533-540 and handed to `schedule()`. -/
def TaskScheduler.spawn (heap : Heap) (arg_policy : TaskPolicyData)
    (arg_function : Nat) (arg_functor : Nat) (sizeof_task : Nat)
    (alloc_result : Option Nat) : Outcome SpawnResult :=
  match TaskScheduler.spawn_queue heap arg_policy with
  | .nullDeref => .nullDeref
  | .abort msg => .abort msg
  | .ok none => .abort "Kokkos spawn without Scheduler or Future"
  | .ok (some q) =>
    match alloc_result with
    | none =>
      .ok { f := { m_task := none }
          , new_task := none
          , scheduled := []
          , dep_increments := []
          , pool_requests := [sizeof_task] }
    | some addr =>
      let t0 : TaskBase :=
        { m_queue := some q
        , m_ref_count := 2
        , m_alloc_size := sizeof_task
        , m_apply := some arg_function
        , m_dep := none
        , m_dep_count := 0
        , m_task_type := arg_policy.m_task_type
        , m_priority := arg_policy.m_priority
        , m_functor := arg_functor
        , m_result := 0
        , aggregate_deps := [] }
      let ti := add_dependence t0 arg_policy.m_dependence.m_task
      .ok { f := { m_task := some addr }
          , new_task := some (addr, ti.1)
          , scheduled := [addr]
          , dep_increments := ti.2
          , pool_requests := [sizeof_task] }

/-- `TaskScheduler::respawn( arg_self , arg_dependence , arg_priority )`,
lines 550-573: sets `task->m_priority = static_cast<int>(arg_priority)` and
calls `task->add_dependence( arg_dependence.m_task )`.  Returns the updated
task record together with the dependency `ref_count` increments performed by
`add_dependence`. -/
def TaskScheduler.respawn (arg_self : TaskBase) (arg_dependence : Future)
    (arg_priority : TaskPriority) : TaskBase × List Nat :=
  add_dependence { arg_self with m_priority := arg_priority.toInt }
    arg_dependence.m_task

/-- Everything a non-aborting `when_all` call did (same reading as
`SpawnResult`). -/
structure WhenAllResult where
  f : Future
  new_task : Option (Nat × TaskBase)
  scheduled : List Nat
  dep_increments : List Nat
  pool_requests : List Nat
deriving DecidableEq, Repr

/-- `TaskScheduler::when_all( arg , narg )`, lines 579-630.  `arg` is the
input future array (`narg` is its length), `sizeof_task_base` and
`sizeof_ptr` stand for the compile-time `sizeof(task_base)` and
`sizeof(task_base*)`, and `alloc_result` for the pool's answer.  With
`narg != 0` the code reads `arg[0].m_task->m_queue` with no null check on
`arg[0]`; the aggregate record is default-constructed (`m_apply` null per
the spec, priority Regular) and then `m_queue`, `m_ref_count = 2`,
`m_alloc_size`, `m_dep_count = narg` and `m_task_type = Aggregate` are
assigned; the trailer receives the `narg` task pointers in order and each
non-null one gets a `ref_count` increment. -/
def TaskScheduler.when_all_queue (heap : Heap) (a0 : Future) : Outcome Nat :=
  match a0.m_task with
  | none => .nullDeref
  | some p0 =>
    match heap.lookup p0 with
    | none => .nullDeref
    | some t0 =>
      match t0.m_queue with
      | none => .nullDeref
      | some q => .ok q

/-- Body of `TaskScheduler::when_all`; the `when_all_queue` step models
line 591 (`queue_type * const queue = arg[0].m_task->m_queue`), where a null
`arg[0].m_task`, a dangling one, or a null resolved queue all lead to a null
dereference (the queue pointer is immediately used for `queue->allocate`). -/
def TaskScheduler.when_all (heap : Heap) (arg : List Future)
    (sizeof_task_base : Nat) (sizeof_ptr : Nat)
    (alloc_result : Option Nat) : Outcome WhenAllResult :=
  match arg with
  | [] =>
    .ok { f := { m_task := none }
        , new_task := none
        , scheduled := []
        , dep_increments := []
        , pool_requests := [] }
  | a0 :: _ =>
    match TaskScheduler.when_all_queue heap a0 with
    | .nullDeref => .nullDeref
    | .abort msg => .abort msg
    | .ok q =>
          let size := sizeof_task_base + arg.length * sizeof_ptr
          match alloc_result with
          | none =>
            .ok { f := { m_task := none }
                , new_task := none
                , scheduled := []
                , dep_increments := []
                , pool_requests := [size] }
          | some addr =>
            let t : TaskBase :=
              { m_queue := some q
              , m_ref_count := 2
              , m_alloc_size := size
              , m_apply := none
              , m_dep := none
              , m_dep_count := arg.length
              , m_task_type := TaskType.Aggregate
              , m_priority := TaskPriority.Regular.toInt
              , m_functor := 0
              , m_result := 0
              , aggregate_deps := arg.map Future.m_task }
            .ok { f := { m_task := some addr }
                , new_task := some (addr, t)
                , scheduled := [addr]
                , dep_increments := (arg.map Future.m_task).filterMap id
                , pool_requests := [size] }

/-- `Future::get()`, lines 313-321: aborts when `0 == m_task`, otherwise
returns `m_task->get()`.  `TaskBase::get` lives in the (absent)
`impl/Kokkos_TaskQueue.hpp`; modelled from the spec ("result slot",
"result retrieval"): it reads the task's result storage. -/
def Future.get (heap : Heap) (f : Future) : Outcome Int :=
  match f.m_task with
  | none => .abort "Kokkos:::Future::get ERROR: is_null()"
  | some p =>
    match heap.lookup p with
    | some t => .ok t.m_result
    | none => .nullDeref

/-!
Team collectives of `core/src/OpenMP/Kokkos_OpenMP_Task.hpp`.  A team of
`team_size` members runs the `parallel_reduce` body cooperatively; each
member `team_rank` iterates its `TeamThreadRangeBoundariesStruct` slice of
the index range and the members then combine through the team-shared
array between barriers.
-/

/-- The fields of `TeamThreadRangeBoundariesStruct` used by the collectives
(`start`, `end` — a Lean keyword, hence `stop` —, `increment`) together
with the calling member's `thread.team_rank()` and `thread.team_size()`. -/
structure TeamThreadRangeBoundaries where
  start : Nat
  stop : Nat
  increment : Nat
  team_rank : Nat
  team_size : Nat
deriving DecidableEq, Repr

/-- Modelled from the spec: the constructor of
`TeamThreadRangeBoundariesStruct` lives outside this source tree; per the
spec (section 4.8) the index range `[b, e)` "is partitioned across team
members": member `r` of a team of size `T` starts at `b + r` and strides by
`T` (the usual cyclic partition, under which every index belongs to exactly
one member). -/
def TeamThreadRange (b e r T : Nat) : TeamThreadRangeBoundaries :=
  { start := b + r, stop := e, increment := T, team_rank := r, team_size := T }

/-- The indices visited by the source loop
`for( i = start ; i < stop ; i += increment )`: for a positive increment the
loop body runs once per `i` in `start, start + increment, ...` below `stop`,
i.e. `ceil((stop - start) / increment)` times. -/
def loopIndices (start stop increment : Nat) : List Nat :=
  if 0 < increment then
    List.range' start ((stop - start + increment - 1) / increment) increment
  else []

/-- The member-local phase of `parallel_reduce` (lines 201-206 and 242-247):
`ValueType result = init_result` followed by `lambda(i, result)` over the
member's loop indices. -/
def member_result {V : Type} (lb : TeamThreadRangeBoundaries)
    (lam : Nat → V → V) (init_result : V) : V :=
  (loopIndices lb.start lb.stop lb.increment).foldl (fun acc i => lam i acc)
    init_result

/-- The local results of the `T` members, in team-rank order (each member
starts from the same `init_result`, as in the spec's scenarios). -/
def team_locals {V : Type} (T b e : Nat) (lam : Nat → V → V)
    (init_result : V) : List V :=
  (List.range T).map fun r => member_result (TeamThreadRange b e r T) lam init_result

/-- Plain-form `parallel_reduce` (lines 194-232), whole-team view: when
`1 < team_size` each member stores its local result in the team-shared
array (`shared[team_rank] = result`), member 0 folds
`shared[0] += shared[i]` for `i = 1 .. team_size-1`, and after the final
barrier every member reads `initialized_result = shared[0]`; otherwise the
single member keeps its local result.  The returned list holds each
member's final `initialized_result`, indexed by team rank. -/
def parallel_reduce_plain {V : Type} [Add V] (T b e : Nat)
    (lam : Nat → V → V) (init_result : V) : List V :=
  let locals := team_locals T b e lam init_result
  if 1 < T then
    match locals with
    | [] => []
    | l0 :: rest => List.replicate T (rest.foldl (fun a v => a + v) l0)
  else locals

/-- Join-form `parallel_reduce` (lines 234-272): identical to the plain form
except that member 0 combines with `join(shared[0], shared[i])`. -/
def parallel_reduce_join {V : Type} (T b e : Nat) (lam : Nat → V → V)
    (join : V → V → V) (init_result : V) : List V :=
  let locals := team_locals T b e lam init_result
  if 1 < T then
    match locals with
    | [] => []
    | l0 :: rest => List.replicate T (rest.foldl (fun a v => join a v) l0)
  else locals

/-! Theorems. -/

/-- C1 counterexample.  A policy built from a null dependency `Future` makes
`spawn` abort ("Kokkos spawn without Scheduler or Future"), while the same
spawn with a scheduler-only policy succeeds and returns a non-null future:
the two are not equivalent. -/
theorem kokkos_c1_counterexample :
    TaskScheduler.spawn []
        (TaskPolicyData.fromFuture .TaskSingle { m_task := none } .Regular)
        5 7 4 (some 2)
      = .abort "Kokkos spawn without Scheduler or Future" ∧
    TaskScheduler.spawn []
        (TaskPolicyData.fromScheduler .TaskSingle { m_queue := some 1 } .Regular)
        5 7 4 (some 2)
      = .ok { f := { m_task := some 2 }
            , new_task := some (2,
                { m_queue := some 1, m_ref_count := 2, m_alloc_size := 4
                , m_apply := some 5, m_dep := none, m_dep_count := 0
                , m_task_type := .TaskSingle, m_priority := 1
                , m_functor := 7, m_result := 0, aggregate_deps := [] })
            , scheduled := [2], dep_increments := [], pool_requests := [4] } ∧
    TaskScheduler.spawn []
        (TaskPolicyData.fromFuture .TaskSingle { m_task := none } .Regular)
        5 7 4 (some 2)
      ≠ TaskScheduler.spawn []
        (TaskPolicyData.fromScheduler .TaskSingle { m_queue := some 1 } .Regular)
        5 7 4 (some 2) := by
  exact ⟨rfl, rfl, by decide⟩

/-- C1 (amended).  For every functor body, priority, task type, heap and
pool answer, calling `spawn` with a policy built from a null dependency
`Future` is not equivalent to a scheduler-only spawn: the policy then
carries neither a scheduler nor a usable dependence, so `spawn` aborts with
"Kokkos spawn without Scheduler or Future". -/
theorem kokkos_c1_null_dep_future_spawn_aborts
    (heap : Heap) (tt : TaskType) (prio : TaskPriority)
    (fn functor sz : Nat) (alloc : Option Nat) :
    TaskScheduler.spawn heap
        (TaskPolicyData.fromFuture tt { m_task := none } prio)
        fn functor sz alloc
      = .abort "Kokkos spawn without Scheduler or Future" := rfl

/-- C2.  Whenever `spawn` reaches a successful pool allocation, the task
record handed to `schedule()` has `ref_count = 2`, `alloc_size` equal to the
exact size requested from the pool (the `sizeof` of the concrete task type),
`apply` set to the supplied function pointer, `task_type` and `priority`
copied from the policy, and the policy's dependence attached via
`add_dependence` (recorded in `m_dep` together with the dependency
`ref_count` increment it performs). -/
theorem kokkos_c2_spawn_initializes_task
    (heap : Heap) (policy : TaskPolicyData) (fn functor sz addr : Nat)
    (r : SpawnResult)
    (h : TaskScheduler.spawn heap policy fn functor sz (some addr) = .ok r) :
    ∃ t : TaskBase,
      r.new_task = some (addr, t) ∧
      t.m_ref_count = 2 ∧
      t.m_alloc_size = sz ∧
      r.pool_requests = [sz] ∧
      t.m_apply = some fn ∧
      t.m_task_type = policy.m_task_type ∧
      t.m_priority = policy.m_priority ∧
      t.m_dep = policy.m_dependence.m_task ∧
      r.dep_increments = policy.m_dependence.m_task.toList ∧
      r.scheduled = [addr] := by
  unfold TaskScheduler.spawn at h
  cases hq : TaskScheduler.spawn_queue heap policy with
  | nullDeref => rw [hq] at h; cases h
  | abort msg => rw [hq] at h; cases h
  | ok oq =>
    cases oq with
    | none => rw [hq] at h; cases h
    | some q =>
      rw [hq] at h
      cases h
      exact ⟨_, rfl, rfl, rfl, rfl, rfl, rfl, rfl, rfl, rfl, rfl⟩

/-- C2 witness: a concrete scheduler-only spawn with pool address 2. -/
theorem kokkos_c2_witness :
    ∃ r : SpawnResult,
      TaskScheduler.spawn []
          (TaskPolicyData.fromScheduler .TaskSingle { m_queue := some 1 } .Regular)
          5 7 4 (some 2) = .ok r ∧
      ∃ t : TaskBase,
        r.new_task = some (2, t) ∧
        t.m_ref_count = 2 ∧
        t.m_alloc_size = 4 ∧
        r.pool_requests = [4] ∧
        t.m_apply = some 5 ∧
        t.m_task_type = TaskType.TaskSingle ∧
        t.m_priority = 1 ∧
        t.m_dep = none ∧
        r.dep_increments = [] ∧
        r.scheduled = [2] :=
  ⟨{ f := { m_task := some 2 }
   , new_task := some (2,
       { m_queue := some 1, m_ref_count := 2, m_alloc_size := 4
       , m_apply := some 5, m_dep := none, m_dep_count := 0
       , m_task_type := .TaskSingle, m_priority := 1, m_functor := 7
       , m_result := 0, aggregate_deps := [] })
   , scheduled := [2], dep_increments := [], pool_requests := [4] }
  , rfl
  , kokkos_c2_spawn_initializes_task []
      (TaskPolicyData.fromScheduler .TaskSingle { m_queue := some 1 } .Regular)
      5 7 4 2 _ rfl⟩

/-- C3.  Whenever `spawn` has resolved a queue (so allocation is attempted)
and the memory pool returns null, `spawn` returns normally (no abort) with a
null future, no task record constructed, nothing scheduled and no
dependency increment; the pool was asked exactly for `sizeof(task_type)`. -/
theorem kokkos_c3_alloc_failure_null_future
    (heap : Heap) (policy : TaskPolicyData) (fn functor sz q : Nat)
    (h : TaskScheduler.spawn_queue heap policy = .ok (some q)) :
    ∃ r : SpawnResult,
      TaskScheduler.spawn heap policy fn functor sz none = .ok r ∧
      r.f.is_null = true ∧
      r.new_task = none ∧
      r.scheduled = [] ∧
      r.dep_increments = [] ∧
      r.pool_requests = [sz] := by
  unfold TaskScheduler.spawn
  rw [h]
  exact ⟨_, rfl, rfl, rfl, rfl, rfl, rfl⟩

/-- C3 witness: concrete exhausted-pool spawn. -/
theorem kokkos_c3_witness :
    ∃ r : SpawnResult,
      TaskScheduler.spawn []
          (TaskPolicyData.fromScheduler .TaskSingle { m_queue := some 1 } .Regular)
          5 7 4 none = .ok r ∧
      r.f.is_null = true ∧
      r.new_task = none ∧
      r.scheduled = [] ∧
      r.dep_increments = [] ∧
      r.pool_requests = [4] :=
  kokkos_c3_alloc_failure_null_future [] _ 5 7 4 1 rfl

/-- Counting through `filterMap id`: dropping the `none`s keeps one
occurrence per `some p`. -/
theorem count_filterMap_id (l : List (Option Nat)) (p : Nat) :
    (l.filterMap id).count p = l.count (some p) := by
  induction l with
  | nil => rfl
  | cons a l ih =>
    cases a with
    | none => simpa [List.filterMap_cons, List.count_cons] using ih
    | some a => simp [List.filterMap_cons, List.count_cons, ih]

/-- C4.  Whenever `when_all` on a non-empty input reaches a successful pool
allocation, the aggregate record handed to `schedule()` has
`task_type = Aggregate`, `ref_count = 2`, `dep_count = narg`, `alloc_size`
equal to the exact trailer-carrying size requested from the pool, its
trailer holds exactly the `narg` input task pointers in order, and each
non-null input task receives exactly one `ref_count` increment (one per
occurrence) before the aggregate is scheduled. -/
theorem kokkos_c4_when_all_aggregate_init
    (heap : Heap) (a0 : Future) (rest : List Future) (szB szP addr : Nat)
    (r : WhenAllResult)
    (h : TaskScheduler.when_all heap (a0 :: rest) szB szP (some addr)
          = .ok r) :
    ∃ t : TaskBase,
      r.new_task = some (addr, t) ∧
      t.m_task_type = TaskType.Aggregate ∧
      t.m_ref_count = 2 ∧
      t.m_dep_count = (a0 :: rest).length ∧
      t.m_alloc_size = szB + (a0 :: rest).length * szP ∧
      r.pool_requests = [szB + (a0 :: rest).length * szP] ∧
      t.aggregate_deps = (a0 :: rest).map Future.m_task ∧
      r.dep_increments = ((a0 :: rest).map Future.m_task).filterMap id ∧
      (∀ p : Nat, r.dep_increments.count p
          = ((a0 :: rest).map Future.m_task).count (some p)) ∧
      r.scheduled = [addr] := by
  simp only [TaskScheduler.when_all] at h
  cases hq : TaskScheduler.when_all_queue heap a0 with
  | nullDeref => rw [hq] at h; cases h
  | abort msg => rw [hq] at h; cases h
  | ok q =>
    rw [hq] at h
    cases h
    refine ⟨_, rfl, rfl, rfl, rfl, rfl, rfl, rfl, rfl, ?_, rfl⟩
    intro p
    exact count_filterMap_id _ p

/-- C4 witness: a two-entry `when_all` (second entry null) on a live head
task at address 3 whose queue is 9; pool grants address 12. -/
theorem kokkos_c4_witness :
    ∃ t : TaskBase,
      (WhenAllResult.mk { m_task := some 12 }
        (some (12,
          { m_queue := some 9, m_ref_count := 2, m_alloc_size := 14
          , m_apply := none, m_dep := none, m_dep_count := 2
          , m_task_type := .Aggregate, m_priority := 1, m_functor := 0
          , m_result := 0, aggregate_deps := [some 3, none] }))
        [12] [3] [14]).new_task = some (12, t) ∧
      t.m_task_type = TaskType.Aggregate ∧
      t.m_ref_count = 2 ∧
      t.m_dep_count = 2 ∧
      t.m_alloc_size = 14 ∧
      (WhenAllResult.pool_requests (WhenAllResult.mk { m_task := some 12 }
        (some (12,
          { m_queue := some 9, m_ref_count := 2, m_alloc_size := 14
          , m_apply := none, m_dep := none, m_dep_count := 2
          , m_task_type := .Aggregate, m_priority := 1, m_functor := 0
          , m_result := 0, aggregate_deps := [some 3, none] }))
        [12] [3] [14])) = [14] ∧
      t.aggregate_deps = [some 3, none] ∧
      ([3] : List Nat) = [some 3, none].filterMap id ∧
      (∀ p : Nat, ([3] : List Nat).count p
          = ([some 3, none] : List (Option Nat)).count (some p)) ∧
      ([12] : List Nat) = [12] :=
  kokkos_c4_when_all_aggregate_init
    [(3, { m_queue := some 9, m_ref_count := 2, m_alloc_size := 4
         , m_apply := none, m_dep := none, m_dep_count := 0
         , m_task_type := .TaskSingle, m_priority := 1, m_functor := 0
         , m_result := 0, aggregate_deps := [] })]
    { m_task := some 3 } [{ m_task := none }] 10 2 12 _ rfl

/-- C5.  `when_all` with an empty input array returns a null future and does
nothing at all: no pool request, no task record, nothing scheduled, no
`ref_count` increment. -/
theorem kokkos_c5_when_all_zero (heap : Heap) (szB szP : Nat)
    (alloc : Option Nat) :
    TaskScheduler.when_all heap [] szB szP alloc
      = .ok { f := { m_task := none }, new_task := none, scheduled := []
            , dep_increments := [], pool_requests := [] } := rfl

/-- C7.  `respawn` only sets the executing task's priority and (via
`add_dependence`) its dependence; `ref_count`, `alloc_size`, `apply`,
`task_type`, the queue back-reference, the functor and result storage and
the aggregate trailer are all untouched. -/
theorem kokkos_c7_respawn_frame (t : TaskBase) (fut : Future)
    (prio : TaskPriority) :
    (TaskScheduler.respawn t fut prio).1.m_priority = prio.toInt ∧
    (TaskScheduler.respawn t fut prio).1.m_dep = fut.m_task ∧
    (TaskScheduler.respawn t fut prio).1.m_ref_count = t.m_ref_count ∧
    (TaskScheduler.respawn t fut prio).1.m_alloc_size = t.m_alloc_size ∧
    (TaskScheduler.respawn t fut prio).1.m_apply = t.m_apply ∧
    (TaskScheduler.respawn t fut prio).1.m_task_type = t.m_task_type ∧
    (TaskScheduler.respawn t fut prio).1.m_queue = t.m_queue ∧
    (TaskScheduler.respawn t fut prio).1.m_dep_count = t.m_dep_count ∧
    (TaskScheduler.respawn t fut prio).1.m_functor = t.m_functor ∧
    (TaskScheduler.respawn t fut prio).1.m_result = t.m_result ∧
    (TaskScheduler.respawn t fut prio).1.aggregate_deps = t.aggregate_deps :=
  ⟨rfl, rfl, rfl, rfl, rfl, rfl, rfl, rfl, rfl, rfl, rfl⟩

/-- C8.  A `spawn` whose policy carries neither a scheduler pointer nor a
dependence future with a non-null task aborts (MissingScheduler) instead of
returning. -/
theorem kokkos_c8_missing_scheduler_aborts
    (heap : Heap) (policy : TaskPolicyData) (fn functor sz : Nat)
    (alloc : Option Nat)
    (hs : policy.m_scheduler = none)
    (hd : policy.m_dependence.m_task = none) :
    TaskScheduler.spawn heap policy fn functor sz alloc
      = .abort "Kokkos spawn without Scheduler or Future" := by
  unfold TaskScheduler.spawn TaskScheduler.spawn_queue
  rw [hs, hd]

/-- C8 witness: the null-future policy of a default-constructed future. -/
theorem kokkos_c8_witness :
    TaskScheduler.spawn []
        (TaskPolicyData.fromFuture .TaskTeam { m_task := none } .Low)
        5 7 4 (some 2)
      = .abort "Kokkos spawn without Scheduler or Future" :=
  kokkos_c8_missing_scheduler_aborts [] _ 5 7 4 (some 2) rfl rfl

/-- C10.  `when_all` with at least one input requires the first future to be
non-null: it reads `arg[0].m_task->m_queue` with no null check, so a null
first entry is a null-pointer dereference, for every pool answer.  Later
entries may be null: a successful call stores every input task pointer —
nulls included — in the trailer and performs `ref_count` increments only
for the non-null ones. -/
theorem kokkos_c10_when_all_first_input (heap : Heap) (a0 : Future)
    (rest : List Future) (szB szP : Nat) :
    (∀ alloc : Option Nat, a0.m_task = none →
      TaskScheduler.when_all heap (a0 :: rest) szB szP alloc = .nullDeref) ∧
    (∀ (addr : Nat) (r : WhenAllResult),
      TaskScheduler.when_all heap (a0 :: rest) szB szP (some addr) = .ok r →
      ∃ t : TaskBase,
        r.new_task = some (addr, t) ∧
        t.aggregate_deps = (a0 :: rest).map Future.m_task ∧
        r.dep_increments = ((a0 :: rest).map Future.m_task).filterMap id) := by
  constructor
  · intro alloc h
    simp only [TaskScheduler.when_all, TaskScheduler.when_all_queue, h]
  · intro addr r h
    simp only [TaskScheduler.when_all] at h
    cases hq : TaskScheduler.when_all_queue heap a0 with
    | nullDeref => rw [hq] at h; cases h
    | abort msg => rw [hq] at h; cases h
    | ok q =>
      rw [hq] at h
      cases h
      exact ⟨_, rfl, rfl, rfl⟩

/-- C10 witness: a null first future dereferences null; with a live first
task at address 3 and a null second entry, the trailer keeps the null and
only task 3 is incremented. -/
theorem kokkos_c10_witness :
    TaskScheduler.when_all [] [{ m_task := none }] 1 1 (some 2)
      = .nullDeref ∧
    ∃ t : TaskBase,
      (WhenAllResult.mk { m_task := some 12 }
        (some (12,
          { m_queue := some 9, m_ref_count := 2, m_alloc_size := 14
          , m_apply := none, m_dep := none, m_dep_count := 2
          , m_task_type := .Aggregate, m_priority := 1, m_functor := 0
          , m_result := 0, aggregate_deps := [some 3, none] }))
        [12] [3] [14]).new_task = some (12, t) ∧
      t.aggregate_deps = [some 3, none] ∧
      ([3] : List Nat) = [some 3, none].filterMap id :=
  ⟨(kokkos_c10_when_all_first_input [] { m_task := none } [] 1 1).1
      (some 2) rfl,
   (kokkos_c10_when_all_first_input
      [(3, { m_queue := some 9, m_ref_count := 2, m_alloc_size := 4
           , m_apply := none, m_dep := none, m_dep_count := 0
           , m_task_type := .TaskSingle, m_priority := 1, m_functor := 0
           , m_result := 0, aggregate_deps := [] })]
      { m_task := some 3 } [{ m_task := none }] 10 2).2 12 _ rfl⟩

/-- C9.  `Future::get` aborts on a null future and, on a non-null future
whose task is live in the heap, returns the task's result slot without
aborting. -/
theorem kokkos_c9_future_get (heap : Heap) (f : Future) :
    (f.m_task = none →
      Future.get heap f = .abort "Kokkos:::Future::get ERROR: is_null()") ∧
    (∀ (p : Nat) (t : TaskBase), f.m_task = some p → heap.lookup p = some t →
      Future.get heap f = .ok t.m_result) := by
  constructor
  · intro h
    simp only [Future.get, h]
  · intro p t hp ht
    simp only [Future.get, hp, ht]

/-- C9 witness: both branches of `Future::get` at concrete inputs. -/
theorem kokkos_c9_witness :
    Future.get [] { m_task := none }
      = .abort "Kokkos:::Future::get ERROR: is_null()" ∧
    Future.get
      [(2, { m_queue := some 1, m_ref_count := 2, m_alloc_size := 4
           , m_apply := none, m_dep := none, m_dep_count := 0
           , m_task_type := .TaskSingle, m_priority := 1, m_functor := 0
           , m_result := 5, aggregate_deps := [] })]
      { m_task := some 2 } = .ok 5 :=
  ⟨(kokkos_c9_future_get [] { m_task := none }).1 rfl,
   (kokkos_c9_future_get
      [(2, { m_queue := some 1, m_ref_count := 2, m_alloc_size := 4
           , m_apply := none, m_dep := none, m_dep_count := 0
           , m_task_type := .TaskSingle, m_priority := 1, m_functor := 0
           , m_result := 5, aggregate_deps := [] })]
      { m_task := some 2 }).2 2
      { m_queue := some 1, m_ref_count := 2, m_alloc_size := 4
      , m_apply := none, m_dep := none, m_dep_count := 0
      , m_task_type := .TaskSingle, m_priority := 1, m_functor := 0
      , m_result := 5, aggregate_deps := [] } rfl rfl⟩

/-- Iteration count of the source loop: the ceiling division in
`loopIndices` admits index `i` exactly when `start + increment * i` is
below `stop`, i.e. `T * i < d` with `d` the remaining distance. -/
theorem lt_ceil_div_iff (d T i : Nat) (hT : 0 < T) :
    i < (d + T - 1) / T ↔ T * i < d := by
  rw [Nat.lt_iff_add_one_le, Nat.le_div_iff_mul_le hT]
  have h1 : (i + 1) * T = i * T + T := by ring
  rw [h1, Nat.mul_comm T i]
  generalize i * T = a
  omega

/-- Membership in the visited-index list of the loop. -/
theorem mem_loopIndices {s e T x : Nat} (hT : 0 < T) :
    x ∈ loopIndices s e T ↔ ∃ i, x = s + T * i ∧ x < e := by
  unfold loopIndices
  rw [if_pos hT, List.mem_range']
  constructor
  · rintro ⟨i, hi, rfl⟩
    refine ⟨i, rfl, ?_⟩
    have h2 := (lt_ceil_div_iff (e - s) T i hT).mp hi
    revert h2
    generalize T * i = a
    intro h2
    omega
  · rintro ⟨i, rfl, hlt⟩
    refine ⟨i, ?_, rfl⟩
    rw [lt_ceil_div_iff (e - s) T i hT]
    revert hlt
    generalize T * i = a
    intro hlt
    omega

/-- Member `r` of a team of `T` visits exactly the indices of `[b, e)`
whose offset from `b` has residue `r` modulo `T`. -/
theorem mem_loopIndices_residue {b e T r x : Nat} (hr : r < T) :
    x ∈ loopIndices (b + r) e T ↔ b ≤ x ∧ x < e ∧ (x - b) % T = r := by
  have hT : 0 < T := Nat.lt_of_le_of_lt (Nat.zero_le r) hr
  rw [mem_loopIndices hT]
  constructor
  · rintro ⟨i, rfl, hlt⟩
    refine ⟨?_, hlt, ?_⟩
    · rw [Nat.add_assoc]
      exact Nat.le_add_right b (r + T * i)
    · rw [Nat.add_assoc, Nat.add_sub_cancel_left]
      exact (Nat.add_mul_mod_self_left r T i).trans (Nat.mod_eq_of_lt hr)
  · rintro ⟨hb, he, hmod⟩
    refine ⟨(x - b) / T, ?_, he⟩
    have h3 := Nat.mod_add_div (x - b) T
    rw [hmod] at h3
    revert h3
    generalize T * ((x - b) / T) = a
    intro h3
    omega

/-- Each member visits pairwise distinct indices. -/
theorem loopIndices_nodup (s e T : Nat) (hT : 0 < T) :
    (loopIndices s e T).Nodup := by
  unfold loopIndices
  rw [if_pos hT]
  exact List.nodup_range' _ _ _ hT

/-- The cyclic distribution partitions the range: the members' index lists,
concatenated, are a permutation of `[b, e)`. -/
theorem loopIndices_flatten_perm (T b e : Nat) (hT : 0 < T) :
    ((List.range T).map (fun r => loopIndices (b + r) e T)).flatten.Perm
      (List.range' b (e - b)) := by
  have nd1 :
      ((List.range T).map (fun r => loopIndices (b + r) e T)).flatten.Nodup := by
    rw [List.nodup_flatten]
    constructor
    · intro l hl
      rw [List.mem_map] at hl
      obtain ⟨r, hr, rfl⟩ := hl
      exact loopIndices_nodup _ _ _ hT
    · rw [List.pairwise_map]
      refine (List.pairwise_lt_range T).imp_of_mem ?_
      intro r1 r2 h1 h2 hlt x hx1 hx2
      rw [List.mem_range] at h1 h2
      obtain ⟨-, -, hm1⟩ := (mem_loopIndices_residue h1).mp hx1
      obtain ⟨-, -, hm2⟩ := (mem_loopIndices_residue h2).mp hx2
      have : r1 = r2 := hm1.symm.trans hm2
      omega
  have nd2 : (List.range' b (e - b)).Nodup := List.nodup_range' _ _
  rw [List.perm_ext_iff_of_nodup nd1 nd2]
  intro x
  rw [List.mem_flatten, List.mem_range'_1]
  constructor
  · rintro ⟨l, hl, hx⟩
    rw [List.mem_map] at hl
    obtain ⟨r, hr, rfl⟩ := hl
    rw [List.mem_range] at hr
    obtain ⟨h1, h2, -⟩ := (mem_loopIndices_residue hr).mp hx
    omega
  · rintro ⟨hb, hx⟩
    refine ⟨loopIndices (b + (x - b) % T) e T, ?_, ?_⟩
    · rw [List.mem_map]
      exact ⟨(x - b) % T, by rw [List.mem_range]; exact Nat.mod_lt (x - b) hT, rfl⟩
    · rw [mem_loopIndices_residue (Nat.mod_lt (x - b) hT)]
      exact ⟨hb, by omega, rfl⟩

/-- Folding `result += f i` over a list sums `f` over it. -/
theorem foldl_add_map_sum (f : Nat → Nat) :
    ∀ (l : List Nat) (a : Nat),
      l.foldl (fun acc i => acc + f i) a = a + (l.map f).sum := by
  intro l
  induction l with
  | nil => intro a; simp
  | cons x xs ih => intro a; simp [ih, Nat.add_assoc]

/-- Folding `+` from an initial value adds the list sum. -/
theorem foldl_plus_eq_sum :
    ∀ (l : List Nat) (a : Nat), l.foldl (fun x y => x + y) a = a + l.sum := by
  intro l
  induction l with
  | nil => intro a; simp
  | cons x xs ih => intro a; simp [ih, Nat.add_assoc]

/-- With a single-member team the loop covers the whole range. -/
theorem loopIndices_one (s e : Nat) : loopIndices s e 1 = List.range' s (e - s) := by
  simp [loopIndices]

/-- There is one local result per team member. -/
theorem team_locals_length {V : Type} (T b e : Nat) (lam : Nat → V → V)
    (ir : V) : (team_locals T b e lam ir).length = T := by
  simp [team_locals]

/-- Every member of the team ends the plain reduce with the same value. -/
theorem plain_broadcast {V : Type} [inst : Add V] (T b e : Nat)
    (lam : Nat → V → V) (ir : V) (hT : 0 < T) :
    ∃ v : V, parallel_reduce_plain T b e lam ir = List.replicate T v := by
  have hlen := team_locals_length T b e lam ir
  by_cases h1 : 1 < T
  · cases hl : team_locals T b e lam ir with
    | nil =>
      rw [hl] at hlen
      simp at hlen
      omega
    | cons l0 ls =>
      exact ⟨ls.foldl (fun a v => a + v) l0, by simp [parallel_reduce_plain, h1, hl]⟩
  · have hT1 : T = 1 := by omega
    subst hT1
    cases hl : team_locals 1 b e lam ir with
    | nil =>
      rw [hl] at hlen
      simp at hlen
    | cons l0 ls =>
      cases ls with
      | nil => exact ⟨l0, by simp [parallel_reduce_plain, hl]⟩
      | cons y ys =>
        rw [hl] at hlen
        simp at hlen
        try omega

/-- Every member of the team ends the join-form reduce with the same value. -/
theorem join_broadcast {V : Type} (T b e : Nat) (lam : Nat → V → V)
    (join : V → V → V) (ir : V) (hT : 0 < T) :
    ∃ v : V, parallel_reduce_join T b e lam join ir = List.replicate T v := by
  have hlen := team_locals_length T b e lam ir
  by_cases h1 : 1 < T
  · cases hl : team_locals T b e lam ir with
    | nil =>
      rw [hl] at hlen
      simp at hlen
      omega
    | cons l0 ls =>
      exact ⟨ls.foldl (fun a v => join a v) l0, by simp [parallel_reduce_join, h1, hl]⟩
  · have hT1 : T = 1 := by omega
    subst hT1
    cases hl : team_locals 1 b e lam ir with
    | nil =>
      rw [hl] at hlen
      simp at hlen
    | cons l0 ls =>
      cases ls with
      | nil => exact ⟨l0, by simp [parallel_reduce_join, hl]⟩
      | cons y ys =>
        rw [hl] at hlen
        simp at hlen
        try omega

/-- Summing the per-member partial sums equals summing over the range. -/
theorem sum_over_classes (T b e : Nat) (f : Nat → Nat) (hT : 0 < T) :
    ((List.range T).map (fun r => ((loopIndices (b + r) e T).map f).sum)).sum
      = ((List.range' b (e - b)).map f).sum := by
  have h1 := ((loopIndices_flatten_perm T b e hT).map f).sum_eq
  rw [← h1, List.map_flatten, List.sum_flatten, List.map_map, List.map_map]
  rfl

/-- Plain team reduce of `result += f i` from 0 computes the range sum, in
every member's result slot. -/
theorem plain_reduce_sum (T b e : Nat) (f : Nat → Nat) (hT : 0 < T) :
    parallel_reduce_plain T b e (fun i acc => acc + f i) 0
      = List.replicate T (((List.range' b (e - b)).map f).sum) := by
  have hloc : team_locals T b e (fun i acc => acc + f i) 0
      = (List.range T).map (fun r => ((loopIndices (b + r) e T).map f).sum) := by
    unfold team_locals
    refine List.map_congr_left ?_
    intro r hr
    show member_result (TeamThreadRange b e r T) (fun i acc => acc + f i) 0
        = ((loopIndices (b + r) e T).map f).sum
    unfold member_result TeamThreadRange
    simpa using foldl_add_map_sum f (loopIndices (b + r) e T) 0
  by_cases h1 : 1 < T
  · have hlen := team_locals_length T b e (fun i acc => acc + f i) 0
    cases hl : team_locals T b e (fun i acc => acc + f i) 0 with
    | nil =>
      rw [hl] at hlen
      simp at hlen
      omega
    | cons l0 ls =>
      have hval : ls.foldl (fun a v => a + v) l0
          = ((List.range' b (e - b)).map f).sum := by
        rw [foldl_plus_eq_sum, ← List.sum_cons, ← hl, hloc]
        exact sum_over_classes T b e f hT
      simp [parallel_reduce_plain, h1, hl, hval]
  · have hT1 : T = 1 := by omega
    subst hT1
    rw [show (List.range' b (e - b)) = loopIndices b e 1 from (loopIndices_one b e).symm]
    simp [parallel_reduce_plain, team_locals, member_result, TeamThreadRange,
          List.range_succ, foldl_add_map_sum]

/-- C6.  Team `parallel_reduce`: the index range is distributed across the
team members (cyclically, each index to exactly one member), the members'
contributions are combined — by `+` in the plain form, by the user join in
the join form — into one final value held by every member's result slot
after the call.  Plain reduce of `result += f i` from 0 therefore computes
the sum of `f` over the range for every member; in particular a team of
size 4 reducing the identity over `[0, 100)` yields `4950` on all four
members. -/
theorem kokkos_c6_parallel_reduce :
    (∀ (V : Type) [inst : Add V] (T b e : Nat) (lam : Nat → V → V) (ir : V),
        0 < T → ∃ v : V,
        parallel_reduce_plain T b e lam ir = List.replicate T v) ∧
    (∀ (V : Type) (T b e : Nat) (lam : Nat → V → V) (join : V → V → V)
        (ir : V), 0 < T → ∃ v : V,
        parallel_reduce_join T b e lam join ir = List.replicate T v) ∧
    (∀ (V : Type) (T b e : Nat) (lam : Nat → V → V) (join : V → V → V)
        (ir l0 : V) (ls : List V), 1 < T →
        team_locals T b e lam ir = l0 :: ls →
        parallel_reduce_join T b e lam join ir
          = List.replicate T (ls.foldl join l0)) ∧
    (∀ (T b e : Nat) (f : Nat → Nat), 0 < T →
        parallel_reduce_plain T b e (fun i acc => acc + f i) 0
          = List.replicate T (((List.range' b (e - b)).map f).sum)) ∧
    parallel_reduce_plain 4 0 100 (fun i acc => acc + i) 0
      = List.replicate 4 4950 := by
  refine ⟨?_, ?_, ?_, ?_, ?_⟩
  · intro V _inst T b e lam ir hT
    exact plain_broadcast T b e lam ir hT
  · intro V T b e lam join ir hT
    exact join_broadcast T b e lam join ir hT
  · intro V T b e lam join ir l0 ls h1 hl
    simp [parallel_reduce_join, h1, hl]
  · intro T b e f hT
    exact plain_reduce_sum T b e f hT
  · decide

/-- C6 witness: team size 3 broadcast, and a size-2 team summing `[0, 5)`. -/
theorem kokkos_c6_witness :
    (∃ v : Nat, parallel_reduce_plain 3 0 10 (fun i acc => acc + i) 0
        = List.replicate 3 v) ∧
    parallel_reduce_plain 2 0 5 (fun i acc => acc + i) 0
      = List.replicate 2 (((List.range' 0 5).map (fun i => i)).sum) :=
  ⟨kokkos_c6_parallel_reduce.1 Nat 3 0 10 (fun i acc => acc + i) 0 (by decide),
   kokkos_c6_parallel_reduce.2.2.2.1 2 0 5 (fun i => i) (by decide)⟩

end KokkosModel
